import Mathlib

/-!
Verification of the IMC-prosperity-3 trading repository.

This file shallowly embeds the parts of the code that the checked
properties are about:

* `src/backtest/backtester.py` — the historical-replay fill engine
  (`Backtester._process_order`, `Backtester._record_trade`, the per-tick
  loop of `Backtester.run_backtest`).
* `src/tutorial_round/trade_v16.py` / `trade_v17_vwap.py` — the fixed
  fair-value market-making policies (`resin_strategy`,
  `fixed_resin_strategy`) and the KELP rolling VWAP window.
* `src/round_1/round_v_7.py` — the `pendulum_strategy` rolling window.
* `src/round_2/round2_v_1.py` / `round2_v_2.py` — the picnic-basket
  z-score computations and the orchestrating `Trader.run` methods.
* `src/round_2/round2_v_3.py` — `Trader.get_mid_price`.

Python dictionaries are modelled as association lists with unique keys,
Python integers as `Int` (they are unbounded), and real-valued (float)
computations as `ℚ`/`ℝ`.  A Python expression that can raise an exception
(`min()`/`max()` of an empty sequence raises `ValueError`, indexing a
dict with a missing key raises `KeyError`) is modelled as an
`Option`-valued function whose `none` result marks the raised exception.
-/

/-- An order book for one product at one tick (`datamodel.OrderDepth`):
`buy_orders` and `sell_orders` are price-to-volume dictionaries, modelled
as association lists from price to volume. -/
structure OrderDepth where
  buy_orders : List (Int × Int)
  sell_orders : List (Int × Int)
deriving Repr, DecidableEq

/-- Best ask: `min(order_depth.sell_orders.keys())`, `none` when the dict
is empty (Python raises `ValueError` there). -/
def bestAsk (d : OrderDepth) : Option Int :=
  (d.sell_orders.map Prod.fst).min?

/-- Best bid: `max(order_depth.buy_orders.keys())`, `none` when the dict
is empty (Python raises `ValueError` there). -/
def bestBid (d : OrderDepth) : Option Int :=
  (d.buy_orders.map Prod.fst).max?

/-- Dict indexing `book[price]` for a price known to be a key; `0` as a placeholder when
the key is absent (the code only indexes with keys obtained from the same
dict, so the placeholder is never reached on those paths). -/
def volAt (book : List (Int × Int)) (p : Int) : Int :=
  (book.lookup p).getD 0

/-- An order intent (`datamodel.Order` restricted to one product): price
and signed quantity; positive quantity is a buy, negative a sell. -/
structure Order where
  price : Int
  quantity : Int
deriving Repr, DecidableEq

/-- Trade side recorded by `Backtester._record_trade`. -/
inductive Side where
  | buy
  | sell
deriving Repr, DecidableEq

/-- One entry of `Backtester.trade_history`. -/
structure TradeRec where
  product : String
  price : Int
  quantity : Int
  side : Side
deriving Repr, DecidableEq

/-- The mutable portfolio state of `Backtester`: `current_positions`
(a dict keyed by product name), accumulated `pnl`, and `trade_history`. -/
structure BTState where
  positions : List (String × Int)
  pnl : Int
  trade_history : List TradeRec
deriving Repr, DecidableEq

/-- The state built by `Backtester.__init__`: positions start as
`{'RAINFOREST_RESIN': 0, 'KELP': 0}`, pnl `0`, empty trade history. -/
def initBTState : BTState :=
  { positions := [("RAINFOREST_RESIN", 0), ("KELP", 0)]
    pnl := 0
    trade_history := [] }

/-- In-place dict update `ps[k] = v` on an association list: replaces the
value at the first occurrence of `k`, leaves the list unchanged when `k`
is absent. -/
def posUpdate (ps : List (String × Int)) (k : String) (v : Int) :
    List (String × Int) :=
  match ps with
  | [] => []
  | (k0, v0) :: rest =>
      if k0 = k then (k0, v) :: rest else (k0, v0) :: posUpdate rest k v

/-- Models `Backtester._record_trade`: `current_positions[product] += quantity`
(for a buy; `-= quantity` for a sell) — a `KeyError` (modelled `none`)
when `product` is not a key — then
`pnl += quantity * (price * (-1 if buy else 1))` and an append to the
trade history. -/
def record_trade (st : BTState) (product : String) (price quantity : Int)
    (side : Side) : Option BTState :=
  match st.positions.lookup product with
  | none => none
  | some p =>
      some
        { positions :=
            posUpdate st.positions product
              (p + (match side with | Side.buy => quantity | Side.sell => -quantity))
          pnl := st.pnl + quantity * (price * (match side with | Side.buy => -1 | Side.sell => 1))
          trade_history := st.trade_history ++ [⟨product, price, quantity, side⟩] }

/-- Models `Backtester._process_order`: a buy order (`quantity > 0`) is matched
against the best ask and fills at the best ask for
`min(order.quantity, resting ask volume)` when `order.price >= best_ask`;
otherwise (the `else` branch, `quantity <= 0`) it is matched against the
best bid and fills at the best bid for
`min(abs(order.quantity), resting bid volume)` when
`order.price <= best_bid`.  `none` marks a raised exception: `min`/`max`
of an empty book side, or the `KeyError` of `_record_trade`. -/
def process_order (st : BTState) (product : String) (o : Order)
    (d : OrderDepth) : Option BTState :=
  if 0 < o.quantity then
    match bestAsk d with
    | none => none
    | some best_ask =>
        if best_ask ≤ o.price then
          record_trade st product best_ask
            (min o.quantity (volAt d.sell_orders best_ask)) Side.buy
        else some st
  else
    match bestBid d with
    | none => none
    | some best_bid =>
        if o.price ≤ best_bid then
          record_trade st product best_bid
            (min |o.quantity| (volAt d.buy_orders best_bid)) Side.sell
        else some st

/-- The inner loop of `Backtester.run_backtest` step 4 for one product:
process that product's order list in sequence against the (unchanging)
historical book; a raised exception (`none`) aborts the run. -/
def process_orders (st : BTState) (product : String) (d : OrderDepth) :
    List Order → Option BTState
  | [] => some st
  | o :: rest =>
      match process_order st product o d with
      | none => none
      | some st1 => process_orders st1 product d rest

/-- Total buy quantity requested by a list of orders (sum of the positive
signed quantities). -/
def sumBuyQty (orders : List Order) : Int :=
  (orders.map (fun o => if 0 < o.quantity then o.quantity else 0)).sum

/-- Total sell quantity requested by a list of orders (sum of the
magnitudes of the non-positive signed quantities; on the else branch the
quantity is non-positive, so its magnitude is its negation). -/
def sumSellQty (orders : List Order) : Int :=
  (orders.map (fun o => if 0 < o.quantity then 0 else -o.quantity)).sum

/-- All resting volumes recorded in a book are non-negative (the
backtester builds both sides from CSV volume columns via `int(...)`). -/
def nonnegVolumes (d : OrderDepth) : Prop :=
  (∀ pv ∈ d.buy_orders, 0 ≤ pv.2) ∧ (∀ pv ∈ d.sell_orders, 0 ≤ pv.2)

/-- The outer loop of `Backtester.run_backtest` step 4: iterate the
products of the trader result, fetching `order_depths[product]` (a
`KeyError`, modelled `none`, when the tick carries no book for it) and
processing that product's orders. -/
def process_result (st : BTState) (books : List (String × OrderDepth)) :
    List (String × List Order) → Option BTState
  | [] => some st
  | (product, orders) :: rest =>
      match books.lookup product with
      | none => none
      | some d =>
          match process_orders st product d orders with
          | none => none
          | some st1 => process_result st1 books rest

/-- The trailing volume `sum(t['quantity'] for t in self.trade_history[-10:])` from
`run_backtest` step 5. -/
def trailingVolume (hist : List TradeRec) : Int :=
  ((hist.drop (hist.length - 10)).map (fun t => t.quantity)).sum

/-- One group of `run_backtest`'s `groupby('timestamp')`: the timestamp
and the per-product books built from that group's rows. -/
structure TickSnapshot where
  timestamp : Int
  books : List (String × OrderDepth)
deriving Repr, DecidableEq

/-- The fields of a `run_backtest` output row that depend on the engine
state: the timestamp, the pnl carried into the tick (recorded before the
tick's fills), the positions after the tick's fills, and the trailing
traded volume. -/
structure ResultRow where
  timestamp : Int
  pnl_at_start : Int
  positions_after : List (String × Int)
  trailing_volume : Int
deriving Repr, DecidableEq

/-- A trader policy as the replay engine sees it
(`self.trader.run(state)[0]`): from the timestamp, the per-product books
and the current positions to a product-keyed dict of order lists.  The
`trader` module the backtester imports is not part of the repository
source; per the spec (§4.6) it is a deterministic function of the tick
state. -/
def TraderFn : Type :=
  Int → List (String × OrderDepth) → List (String × Int) →
    List (String × List Order)

/-- One iteration of the `run_backtest` loop: invoke the trader on the
tick, process every returned order against the historical book, and emit
the tick's result row.  `none` marks an uncaught exception (which aborts
the whole replay — there is no `try` in `run_backtest`). -/
def run_tick (trader : TraderFn) (st : BTState) (tick : TickSnapshot) :
    Option (BTState × ResultRow) :=
  match process_result st tick.books
      (trader tick.timestamp tick.books st.positions) with
  | none => none
  | some st1 =>
      some (st1,
        { timestamp := tick.timestamp
          pnl_at_start := st.pnl
          positions_after := st1.positions
          trailing_volume := trailingVolume st1.trade_history })

/-- The `run_backtest` loop over the timestamp groups, threading the
engine state and collecting the result rows. -/
def run_ticks (trader : TraderFn) (st : BTState) :
    List TickSnapshot → Option (BTState × List ResultRow)
  | [] => some (st, [])
  | t :: ts =>
      match run_tick trader st t with
      | none => none
      | some (st1, row) =>
          match run_ticks trader st1 ts with
          | none => none
          | some (st2, rows) => some (st2, row :: rows)

/-- Models `Backtester.run_backtest` on an already-parsed input: start from the
freshly initialised state and return the output row sequence. -/
def run_backtest (trader : TraderFn) (ticks : List TickSnapshot) :
    Option (List ResultRow) :=
  (run_ticks trader initBTState ticks).map Prod.snd

/-- The aggressive buy leg of `Trader.resin_strategy` of
`src/tutorial_round/trade_v16.py` (lines 24–31): the emitted orders
together with the `buy_order_volume` counter.  Book volumes follow the
`datamodel` convention: `sell_orders` values are negative, so the
available ask size is `-order_depth.sell_orders[best_ask]`. -/
def resin_take_buy (d : OrderDepth)
    (fair_value width position position_limit : Int) : List Order × Int :=
  match bestAsk d with
  | none => ([], 0)
  | some best_ask =>
      if best_ask ≤ fair_value - width then
        let quantity :=
          min (-(volAt d.sell_orders best_ask)) (position_limit - position)
        if 0 < quantity then ([⟨best_ask, quantity⟩], quantity) else ([], 0)
      else ([], 0)

/-- The aggressive sell leg of `resin_strategy` (lines 33–40 of
`trade_v16.py`): the emitted orders together with the
`sell_order_volume` counter. -/
def resin_take_sell (d : OrderDepth)
    (fair_value width position position_limit : Int) : List Order × Int :=
  match bestBid d with
  | none => ([], 0)
  | some best_bid =>
      if fair_value + width ≤ best_bid then
        let quantity :=
          min (volAt d.buy_orders best_bid) (position_limit + position)
        if 0 < quantity then ([⟨best_bid, -quantity⟩], quantity) else ([], 0)
      else ([], 0)

/-- Models `Trader.resin_strategy` of `src/tutorial_round/trade_v16.py`: fixed
fair-value market making, assembled from the two aggressive legs above
and two passive postings.  The passive postings are sized to the
remaining capacity after subtracting the aggressive volume
(`buy_order_volume` / `sell_order_volume`). -/
def resin_strategy (d : OrderDepth)
    (fair_value width position position_limit : Int) : List Order :=
  let astep := resin_take_buy d fair_value width position position_limit
  let bstep := resin_take_sell d fair_value width position position_limit
  let baaf :=
    (((d.sell_orders.map Prod.fst).filter
        (fun p => fair_value + width < p)).min?).getD (fair_value + width + 1)
  let bbbf :=
    (((d.buy_orders.map Prod.fst).filter
        (fun p => p < fair_value - width)).max?).getD (fair_value - width - 1)
  let buy_quantity := position_limit - (position + astep.2)
  let sell_quantity := position_limit + (position - bstep.2)
  astep.1 ++ bstep.1 ++
    (if 0 < buy_quantity then [⟨bbbf + 1, buy_quantity⟩] else []) ++
    (if 0 < sell_quantity then [⟨baaf - 1, -sell_quantity⟩] else [])

/-- Models `Trader.fixed_resin_strategy` of
`src/tutorial_round/trade_v17_vwap.py`.  `resin_tick` is the value of
`self.resin_tick` after the increment at the start of the call;
`width = base_width + resin_tick // 1500`.  Unlike `trade_v16`, the
passive (posted) quantities use the full capacity
`position_limit ∓ position` without subtracting the aggressive volume.
The unguarded `min`/`max` over the book sides raise (`none`) on an empty
side. -/
def fixed_resin_strategy (d : OrderDepth)
    (position position_limit fair_value base_width resin_tick : Int) :
    Option (List Order) :=
  match bestAsk d, bestBid d with
  | some best_ask, some best_bid =>
      let width := base_width + resin_tick / 1500
      let buy_volume := -(volAt d.sell_orders best_ask)
      let sell_volume := volAt d.buy_orders best_bid
      let takeBuy :=
        if best_ask ≤ fair_value - width ∧ position < position_limit then
          let qty := min (position_limit - position) buy_volume
          if 0 < qty then [⟨best_ask, qty⟩] else []
        else []
      let takeSell :=
        if fair_value + width ≤ best_bid ∧ -position_limit < position then
          let qty := min (position_limit + position) sell_volume
          if 0 < qty then [⟨best_bid, -qty⟩] else []
        else []
      let bbbf :=
        (((d.buy_orders.map Prod.fst).filter
            (fun p => p < fair_value - width)).max?).getD
          (fair_value - width - 1)
      let baaf :=
        (((d.sell_orders.map Prod.fst).filter
            (fun p => fair_value + width < p)).min?).getD
          (fair_value + width + 1)
      let postBuy :=
        if 0 < position_limit - position then
          [⟨bbbf + 1, position_limit - position⟩] else []
      let postSell :=
        if 0 < position_limit + position then
          [⟨baaf - 1, -(position_limit + position)⟩] else []
      some (takeBuy ++ takeSell ++ postBuy ++ postSell)
  | _, _ => none

/-- The rolling-window update of `Trader.pendulum_strategy` in
`src/round_1/round_v_7.py` (also the spread/price-history updates of the
round-2 traders): `history.append(x)`, then `history.pop(0)` once when
the length exceeds the capacity. -/
def pendulum_window_push {α : Type} (maxlen : Nat) (h : List α) (x : α) :
    List α :=
  let h1 := h ++ [x]
  if maxlen < h1.length then h1.drop 1 else h1

/-- The rolling-window update of `Trader.kelp_strategy` in
`src/tutorial_round/trade_v16.py` lines 80–87: when the window is empty
the sample is first appended once as a bootstrap, then appended again;
one `pop(0)` when the length exceeds `timespan`. -/
def kelp_window_push {α : Type} (timespan : Nat) (w : List α) (x : α) :
    List α :=
  let w0 := if w.length = 0 then w ++ [x] else w
  let w1 := w0 ++ [x]
  if timespan < w1.length then w1.drop 1 else w1

/-- The mean `np.mean` / `sum(history)/len(history)` over a window (0 on an empty
window, matching the code paths where the window is known non-empty). -/
def listMean (l : List ℚ) : ℚ :=
  l.sum / l.length

/-- The population variance under `np.std` / `Trader.std_dev`
(`math.sqrt(sum((p - mean) ** 2 for p in prices) / len(prices))`):
the radicand of that square root. -/
def listVariance (l : List ℚ) : ℚ :=
  ((l.map (fun x => (x - listMean l) ^ 2)).sum) / l.length

/-- Models `Trader.std_dev` of `src/round_2/round2_v_2.py` (and `np.std` of
`round2_v_1.py`): the population standard deviation. -/
noncomputable def std_dev (l : List ℚ) : ℝ :=
  Real.sqrt (listVariance l)

/-- The guarded z-score of `src/round_2/round2_v_2.py` line 266:
`z = (mid - mean) / std if std > 0 else 0`.  The branch is taken on
`variance > 0`, which coincides with `std > 0`
(`std_dev_pos_iff` below). -/
noncomputable def zscore_v2 (mid : ℚ) (history : List ℚ) : ℝ :=
  if 0 < listVariance history then
    ((mid : ℝ) - (listMean history : ℝ)) / std_dev history
  else 0

/-- The unguarded z-score of `src/round_2/round2_v_1.py` line 227:
`zscore = (spread - spread_mean) / spread_std` with no zero check.  When
`spread_std` is `0.0` the IEEE division produces a non-finite value
(`nan`/`inf`, with a numpy warning); the non-finite outcome is modelled
as `none`. -/
noncomputable def zscore_v1 (spread : ℚ) (history : List ℚ) :
    Option ℝ :=
  if listVariance history = 0 then none
  else some (((spread : ℝ) - (listMean history : ℝ)) / std_dev history)

/-- Models `Trader.get_mid_price` of `src/round_2/round2_v_3.py`: the Python
code substitutes `float('inf')` / `float('-inf')` for a missing side and
then branches on those sentinels; the branches correspond exactly to the
four emptiness cases.  Both sides empty returns the constant `0`; one
side empty returns the other side's best price; otherwise the arithmetic
mean. -/
def get_mid_price (d : OrderDepth) : ℚ :=
  match bestAsk d, bestBid d with
  | none, none => 0
  | none, some best_bid => best_bid
  | some best_ask, none => best_ask
  | some best_ask, some best_bid => ((best_bid : ℚ) + best_ask) / 2

/-- Modelled from the spec: `mid_price(book, default) → price` "(returns
`default` if both sides empty, else the existing side if only one
exists, else the arithmetic mean)".  The spec's utility carries a
default value for the empty-book case; the repository's
`get_mid_price` takes no such parameter.  This definition exists only
to be compared with `get_mid_price`. -/
def midPriceSpec (d : OrderDepth) (dflt : ℚ) : ℚ :=
  match bestAsk d, bestBid d with
  | none, none => dflt
  | none, some best_bid => best_bid
  | some best_ask, none => best_ask
  | some best_ask, some best_bid => ((best_bid : ℚ) + best_ask) / 2

/-- The per-tick orchestration of `Trader.run` in
`src/round_2/round2_v_1.py` and `src/round_1/round_v_5.py`: the product
policies are invoked sequentially inside one `try`, each adding its
order list to `result`; the first raised exception (`Except.error`)
jumps to the single `except` handler, so the products after it
contribute nothing — the partial `result` built so far is returned. -/
def runPolicies :
    List (String × Except Unit (List Order)) → List (String × List Order)
  | [] => []
  | (product, Except.ok os) :: rest => (product, os) :: runPolicies rest
  | (_, Except.error _) :: _ => []

theorem lookup_posUpdate_self {ps : List (String × Int)} {k : String}
    {p : Int} (h : ps.lookup k = some p) (v : Int) :
    (posUpdate ps k v).lookup k = some v := by
  induction ps with
  | nil => simp [List.lookup] at h
  | cons hd tl ih =>
    obtain ⟨k0, v0⟩ := hd
    by_cases hk : k0 = k
    · subst hk
      simp [posUpdate, List.lookup]
    · have hk2 : (k == k0) = false := by
        simp [beq_iff_eq]
        exact fun hh => hk hh.symm
      simp only [List.lookup, hk2] at h
      simp [posUpdate, hk, List.lookup, hk2, ih h]

theorem lookup_mem_of_mem_keys {l : List (Int × Int)} {p : Int}
    (h : p ∈ l.map Prod.fst) :
    ∃ v, l.lookup p = some v ∧ (p, v) ∈ l := by
  induction l with
  | nil => simp at h
  | cons hd tl ih =>
    obtain ⟨k0, v0⟩ := hd
    rcases List.mem_cons.1 h with h1 | h1
    · simp at h1
      subst h1
      exact ⟨v0, by simp [List.lookup], by simp⟩
    · by_cases hk : p = k0
      · subst hk
        exact ⟨v0, by simp [List.lookup], by simp⟩
      · have hk2 : (p == k0) = false := by simp [beq_iff_eq, hk]
        obtain ⟨v, hv1, hv2⟩ := ih h1
        exact ⟨v, by simp [List.lookup, hk2, hv1], List.mem_cons_of_mem _ hv2⟩

theorem bestAsk_mem {d : OrderDepth} {a : Int} (h : bestAsk d = some a) :
    a ∈ d.sell_orders.map Prod.fst :=
  List.min?_mem (fun x y => by omega) h

theorem bestBid_mem {d : OrderDepth} {b : Int} (h : bestBid d = some b) :
    b ∈ d.buy_orders.map Prod.fst :=
  List.max?_mem (fun x y => by omega) h

theorem record_trade_isSome {st : BTState} {product : String} {p : Int}
    (h : st.positions.lookup product = some p) (price quantity : Int)
    (side : Side) : (record_trade st product price quantity side).isSome := by
  simp [record_trade, h]

/-- C1: in `Backtester._process_order` a buy order (quantity > 0) fills
iff its price is at least the best ask, at the best-ask price, for
quantity `min(order_qty, resting ask volume)`, decreasing cash by
`price * qty`; a sell order (quantity < 0) fills iff its price is at
most the best bid, at the best-bid price, for
`min(|order_qty|, resting bid volume)`, increasing cash by
`price * qty`; and on book `{bids: {99: 10}, asks: {101: 5}}` the buy
order `(101, 8)` fills as `(price = 101, qty = 5)`. -/
theorem fill_correctness :
    (∀ (st : BTState) (product : String) (o : Order) (d : OrderDepth)
        (a p : Int), 0 < o.quantity → bestAsk d = some a →
        st.positions.lookup product = some p →
        (a ≤ o.price →
          process_order st product o d = some
            { positions := posUpdate st.positions product
                (p + min o.quantity (volAt d.sell_orders a))
              pnl := st.pnl - a * min o.quantity (volAt d.sell_orders a)
              trade_history := st.trade_history ++
                [⟨product, a, min o.quantity (volAt d.sell_orders a), Side.buy⟩] }) ∧
        (o.price < a → process_order st product o d = some st)) ∧
    (∀ (st : BTState) (product : String) (o : Order) (d : OrderDepth)
        (b p : Int), o.quantity < 0 → bestBid d = some b →
        st.positions.lookup product = some p →
        (o.price ≤ b →
          process_order st product o d = some
            { positions := posUpdate st.positions product
                (p - min |o.quantity| (volAt d.buy_orders b))
              pnl := st.pnl + b * min |o.quantity| (volAt d.buy_orders b)
              trade_history := st.trade_history ++
                [⟨product, b, min |o.quantity| (volAt d.buy_orders b), Side.sell⟩] }) ∧
        (b < o.price → process_order st product o d = some st)) ∧
    process_order initBTState "RAINFOREST_RESIN" ⟨101, 8⟩
        ⟨[(99, 10)], [(101, 5)]⟩ = some
      { positions := [("RAINFOREST_RESIN", 5), ("KELP", 0)]
        pnl := -505
        trade_history := [⟨"RAINFOREST_RESIN", 101, 5, Side.buy⟩] } := by
  refine ⟨?_, ?_, by decide⟩
  · intro st product o d a p hq ha hp
    constructor
    · intro hpr
      simp only [process_order, if_pos hq, ha, if_pos hpr, record_trade, hp,
        Option.some.injEq, BTState.mk.injEq]
      exact ⟨trivial, by ring, trivial⟩
    · intro hpr
      simp only [process_order, if_pos hq, ha]
      rw [if_neg (by omega)]
  · intro st product o d b p hq hb hp
    constructor
    · intro hpr
      simp only [process_order, if_neg (by omega : ¬ 0 < o.quantity), hb,
        if_pos hpr, record_trade, hp, Option.some.injEq, BTState.mk.injEq]
      exact ⟨by rw [sub_eq_add_neg], by ring, trivial⟩
    · intro hpr
      simp only [process_order, if_neg (by omega : ¬ 0 < o.quantity), hb]
      rw [if_neg (by omega)]

theorem fill_correctness_witness :
    process_order initBTState "RAINFOREST_RESIN" ⟨101, 8⟩
        ⟨[(99, 10)], [(101, 5)]⟩ = some
      { positions := [("RAINFOREST_RESIN", 5), ("KELP", 0)]
        pnl := -505
        trade_history := [⟨"RAINFOREST_RESIN", 101, 5, Side.buy⟩] } := by
  have h := (fill_correctness.1 initBTState "RAINFOREST_RESIN" ⟨101, 8⟩
    ⟨[(99, 10)], [(101, 5)]⟩ 101 0 (by decide) (by decide) (by decide)).1
    (by decide)
  simpa using h

/-- C4 (counterexample): matching a buy order when the book's sell side
is empty raises — `min(order_depth.sell_orders.keys())` is `min()` of an
empty sequence, a `ValueError` with no handler in the replay loop — so
the matching step is not exception-free on one-sided books. -/
theorem matching_empty_side_raises :
    process_order initBTState "RAINFOREST_RESIN" ⟨101, 8⟩
      ⟨[(99, 10)], []⟩ = none := by
  decide

/-- C4 (amended): the matching step raises no exception provided the
book side it consults is non-empty (the sell side for a buy order, the
buy side for a sell order) and the product is a key of the position
table; with an empty consulted side it raises and the replay aborts. -/
theorem matching_no_raise_on_nonempty_side (st : BTState)
    (product : String) (o : Order) (d : OrderDepth)
    (hbuy : 0 < o.quantity → d.sell_orders ≠ [])
    (hsell : o.quantity ≤ 0 → d.buy_orders ≠ [])
    (hkey : (st.positions.lookup product).isSome) :
    (process_order st product o d).isSome := by
  obtain ⟨p, hp⟩ := Option.isSome_iff_exists.1 hkey
  by_cases hq : 0 < o.quantity
  · cases ha : bestAsk d with
    | none =>
        rw [bestAsk, List.min?_eq_none_iff, List.map_eq_nil_iff] at ha
        exact absurd ha (hbuy hq)
    | some a =>
        simp only [process_order, if_pos hq, ha]
        split
        · exact record_trade_isSome hp _ _ _
        · simp
  · cases hb : bestBid d with
    | none =>
        rw [bestBid, List.max?_eq_none_iff, List.map_eq_nil_iff] at hb
        exact absurd hb (hsell (by omega))
    | some b =>
        simp only [process_order, if_neg hq, hb]
        split
        · exact record_trade_isSome hp _ _ _
        · simp

theorem matching_no_raise_on_nonempty_side_witness :
    (process_order initBTState "KELP" ⟨100, -3⟩
      ⟨[(99, 10)], [(101, 5)]⟩).isSome :=
  matching_no_raise_on_nonempty_side initBTState "KELP" ⟨100, -3⟩
    ⟨[(99, 10)], [(101, 5)]⟩ (by decide) (by decide) (by decide)

/-- C10: `Backtester.__init__` creates `current_positions` with exactly
the two keys `RAINFOREST_RESIN` and `KELP`; `_record_trade` on any other
product raises a `KeyError` (modelled `none`), and hence so does
processing an order of any other product that crosses the historical
book. -/
theorem backtester_two_products_only :
    initBTState.positions.map Prod.fst = ["RAINFOREST_RESIN", "KELP"] ∧
    (∀ (product : String), product ≠ "RAINFOREST_RESIN" →
      product ≠ "KELP" →
      ∀ (pnl : Int) (hist : List TradeRec) (price quantity : Int)
        (side : Side),
        record_trade ⟨initBTState.positions, pnl, hist⟩ product price
          quantity side = none) ∧
    (∀ (pnl : Int) (hist : List TradeRec) (product : String),
      product ≠ "RAINFOREST_RESIN" → product ≠ "KELP" →
      ∀ (o : Order) (d : OrderDepth) (a : Int), 0 < o.quantity →
        bestAsk d = some a → a ≤ o.price →
        process_order ⟨initBTState.positions, pnl, hist⟩ product o d =
          none) := by
  have hlook : ∀ (product : String), product ≠ "RAINFOREST_RESIN" →
      product ≠ "KELP" →
      List.lookup product initBTState.positions = none := by
    intro product h1 h2
    have e1 : (product == "RAINFOREST_RESIN") = false := beq_eq_false_iff_ne.2 h1
    have e2 : (product == "KELP") = false := beq_eq_false_iff_ne.2 h2
    simp [initBTState, List.lookup, e1, e2]
  refine ⟨rfl, ?_, ?_⟩
  · intro product h1 h2 pnl hist price quantity side
    simp [record_trade, hlook product h1 h2]
  · intro pnl hist product h1 h2 o d a hq ha hpr
    simp only [process_order, if_pos hq, ha, if_pos hpr, record_trade,
      hlook product h1 h2]

theorem backtester_two_products_only_witness :
    record_trade ⟨initBTState.positions, 0, []⟩ "SQUID_INK" 100 5
      Side.buy = none :=
  backtester_two_products_only.2.1 "SQUID_INK" (by decide) (by decide)
    0 [] 100 5 Side.buy

theorem volAt_nonneg_of_mem_keys {book : List (Int × Int)} {p : Int}
    (hmem : p ∈ book.map Prod.fst) (hvol : ∀ pv ∈ book, 0 ≤ pv.2) :
    0 ≤ volAt book p := by
  obtain ⟨v, hv1, hv2⟩ := lookup_mem_of_mem_keys hmem
  rw [volAt, hv1]
  exact hvol _ hv2

theorem process_order_position_step {st st1 : BTState} {product : String}
    {o : Order} {d : OrderDepth} {p : Int} (hd : nonnegVolumes d)
    (hp : st.positions.lookup product = some p)
    (h : process_order st product o d = some st1) :
    ∃ p1, st1.positions.lookup product = some p1 ∧
      (0 < o.quantity → p ≤ p1 ∧ p1 ≤ p + o.quantity) ∧
      (o.quantity ≤ 0 → p + o.quantity ≤ p1 ∧ p1 ≤ p) := by
  by_cases hq : 0 < o.quantity
  · rw [process_order, if_pos hq] at h
    cases ha : bestAsk d with
    | none => rw [ha] at h; exact absurd h (by simp)
    | some a =>
        rw [ha] at h
        dsimp only at h
        have hv : 0 ≤ volAt d.sell_orders a :=
          volAt_nonneg_of_mem_keys (bestAsk_mem ha) hd.2
        by_cases hpr : a ≤ o.price
        · rw [if_pos hpr, record_trade, hp] at h
          refine ⟨p + min o.quantity (volAt d.sell_orders a), ?_, ?_, ?_⟩
          · have := lookup_posUpdate_self hp
              (p + min o.quantity (volAt d.sell_orders a))
            rw [← Option.some_inj.1 h]
            exact this
          · intro _
            constructor <;> omega
          · intro hq2; omega
        · rw [if_neg hpr] at h
          refine ⟨p, ?_, ?_, ?_⟩
          · rw [← Option.some_inj.1 h]; exact hp
          · intro _; omega
          · intro hq2; omega
  · rw [process_order, if_neg hq] at h
    cases hb : bestBid d with
    | none => rw [hb] at h; exact absurd h (by simp)
    | some b =>
        rw [hb] at h
        dsimp only at h
        have hv : 0 ≤ volAt d.buy_orders b :=
          volAt_nonneg_of_mem_keys (bestBid_mem hb) hd.1
        by_cases hpr : o.price ≤ b
        · rw [if_pos hpr, record_trade, hp] at h
          refine ⟨p + -(min |o.quantity| (volAt d.buy_orders b)), ?_, ?_, ?_⟩
          · have := lookup_posUpdate_self hp
              (p + -(min |o.quantity| (volAt d.buy_orders b)))
            rw [← Option.some_inj.1 h]
            exact this
          · intro hq2; omega
          · intro hq2
            have : |o.quantity| = -o.quantity := abs_of_nonpos hq2
            constructor <;> omega
        · rw [if_neg hpr] at h
          refine ⟨p, ?_, ?_, ?_⟩
          · rw [← Option.some_inj.1 h]; exact hp
          · intro hq2; omega
          · intro _; omega

theorem sumBuyQty_cons (o : Order) (rest : List Order) :
    sumBuyQty (o :: rest) =
      (if 0 < o.quantity then o.quantity else 0) + sumBuyQty rest := by
  simp [sumBuyQty]

theorem sumSellQty_cons (o : Order) (rest : List Order) :
    sumSellQty (o :: rest) =
      (if 0 < o.quantity then 0 else -o.quantity) + sumSellQty rest := by
  simp [sumSellQty]

theorem process_orders_position_bound {product : String} {d : OrderDepth}
    (hd : nonnegVolumes d) (L : Int) :
    ∀ (orders : List Order) (st st1 : BTState) (p : Int),
      st.positions.lookup product = some p →
      p + sumBuyQty orders ≤ L →
      -L ≤ p - sumSellQty orders →
      process_orders st product d orders = some st1 →
      ∃ p1, st1.positions.lookup product = some p1 ∧ -L ≤ p1 ∧ p1 ≤ L := by
  intro orders
  induction orders with
  | nil =>
      intro st st1 p hp hub hlb hrun
      rw [process_orders] at hrun
      refine ⟨p, ?_, ?_, ?_⟩
      · rw [← Option.some_inj.1 hrun]; exact hp
      · simp [sumSellQty] at hlb; omega
      · simp [sumBuyQty] at hub; omega
  | cons o rest ih =>
      intro st st1 p hp hub hlb hrun
      rw [process_orders] at hrun
      cases hstep : process_order st product o d with
      | none => rw [hstep] at hrun; exact absurd hrun (by simp)
      | some stmid =>
          rw [hstep] at hrun
          obtain ⟨pmid, hpmid, hbuy, hsell⟩ :=
            process_order_position_step hd hp hstep
          rw [sumBuyQty_cons] at hub
          rw [sumSellQty_cons] at hlb
          by_cases hq : 0 < o.quantity
          · have := hbuy hq
            rw [if_pos hq] at hub
            rw [if_pos hq] at hlb
            exact ih stmid st1 pmid hpmid (by omega) (by omega) hrun
          · have := hsell (by omega)
            rw [if_neg hq] at hub
            rw [if_neg hq] at hlb
            have habs : |o.quantity| = -o.quantity := abs_of_nonpos (by omega)
            exact ih stmid st1 pmid hpmid (by omega) (by omega) hrun

/-- C2: processing one tick's orders for a product keeps that product's
position within `[-limit, limit]`, provided the tick's order list
respects the per-tick capacity contract of the strategy layer (total buy
quantity at most `limit - position`, total sell quantity at most
`limit + position` — spec §4.4; the `trader` module the backtester
imports is not part of the repository source) and the historical book's
volumes are non-negative. -/
theorem tick_position_limit (product : String) (d : OrderDepth)
    (orders : List Order) (st st1 : BTState) (p L : Int)
    (hd : nonnegVolumes d)
    (hp : st.positions.lookup product = some p)
    (hlo : -L ≤ p) (hhi : p ≤ L)
    (hbuy : sumBuyQty orders ≤ L - p)
    (hsell : sumSellQty orders ≤ L + p)
    (hrun : process_orders st product d orders = some st1) :
    ∃ p1, st1.positions.lookup product = some p1 ∧ -L ≤ p1 ∧ p1 ≤ L :=
  process_orders_position_bound hd L orders st st1 p hp (by omega)
    (by omega) hrun

theorem tick_position_limit_witness :
    ∃ p1, ∃ st1, process_orders initBTState "RAINFOREST_RESIN"
        ⟨[(99, 10)], [(101, 5)]⟩ [⟨101, 8⟩, ⟨99, -3⟩] = some st1 ∧
      st1.positions.lookup "RAINFOREST_RESIN" = some p1 ∧
      -50 ≤ p1 ∧ p1 ≤ 50 := by
  obtain ⟨st1, hst1⟩ : ∃ st1, process_orders initBTState "RAINFOREST_RESIN"
      ⟨[(99, 10)], [(101, 5)]⟩ [⟨101, 8⟩, ⟨99, -3⟩] = some st1 :=
    ⟨_, rfl⟩
  obtain ⟨p1, h1, h2, h3⟩ := tick_position_limit "RAINFOREST_RESIN"
    ⟨[(99, 10)], [(101, 5)]⟩ [⟨101, 8⟩, ⟨99, -3⟩] initBTState st1 0 50
    (by constructor <;> decide) (by decide) (by decide) (by decide)
    (by decide) (by decide) hst1
  exact ⟨p1, st1, hst1, h1, h2, h3⟩

theorem sumBuyQty_append (l1 l2 : List Order) :
    sumBuyQty (l1 ++ l2) = sumBuyQty l1 + sumBuyQty l2 := by
  simp [sumBuyQty]

theorem sumSellQty_append (l1 l2 : List Order) :
    sumSellQty (l1 ++ l2) = sumSellQty l1 + sumSellQty l2 := by
  simp [sumSellQty]

theorem resin_take_buy_spec (d : OrderDepth)
    (fair_value width position position_limit : Int)
    (h2 : position ≤ position_limit) :
    0 ≤ (resin_take_buy d fair_value width position position_limit).2 ∧
    (resin_take_buy d fair_value width position position_limit).2 ≤
      position_limit - position ∧
    sumBuyQty (resin_take_buy d fair_value width position position_limit).1 =
      (resin_take_buy d fair_value width position position_limit).2 ∧
    sumSellQty (resin_take_buy d fair_value width position position_limit).1 =
      0 := by
  rw [resin_take_buy]
  cases bestAsk d with
  | none =>
      dsimp only
      exact ⟨le_refl 0, by omega, by simp [sumBuyQty], by simp [sumSellQty]⟩
  | some a =>
      dsimp only
      split_ifs with hc hq
      · refine ⟨by omega, by omega, ?_, ?_⟩
        · simp only [sumBuyQty, List.map_cons, List.map_nil, List.sum_cons,
            List.sum_nil]
          split_ifs <;> omega
        · simp only [sumSellQty, List.map_cons, List.map_nil, List.sum_cons,
            List.sum_nil]
          split_ifs <;> omega
      · exact ⟨le_refl 0, by omega, by simp [sumBuyQty], by simp [sumSellQty]⟩
      · exact ⟨le_refl 0, by omega, by simp [sumBuyQty], by simp [sumSellQty]⟩

theorem resin_take_sell_spec (d : OrderDepth)
    (fair_value width position position_limit : Int)
    (h1 : -position_limit ≤ position) :
    0 ≤ (resin_take_sell d fair_value width position position_limit).2 ∧
    (resin_take_sell d fair_value width position position_limit).2 ≤
      position_limit + position ∧
    sumSellQty (resin_take_sell d fair_value width position position_limit).1 =
      (resin_take_sell d fair_value width position position_limit).2 ∧
    sumBuyQty (resin_take_sell d fair_value width position position_limit).1 =
      0 := by
  rw [resin_take_sell]
  cases bestBid d with
  | none =>
      dsimp only
      exact ⟨le_refl 0, by omega, by simp [sumSellQty], by simp [sumBuyQty]⟩
  | some b =>
      dsimp only
      split_ifs with hc hq
      · refine ⟨by omega, by omega, ?_, ?_⟩
        · simp only [sumSellQty, List.map_cons, List.map_nil, List.sum_cons,
            List.sum_nil]
          split_ifs <;> omega
        · simp only [sumBuyQty, List.map_cons, List.map_nil, List.sum_cons,
            List.sum_nil]
          split_ifs <;> omega
      · exact ⟨le_refl 0, by omega, by simp [sumSellQty], by simp [sumBuyQty]⟩
      · exact ⟨le_refl 0, by omega, by simp [sumSellQty], by simp [sumBuyQty]⟩

/-- C3 (counterexample): `fixed_resin_strategy` of
`src/tutorial_round/trade_v17_vwap.py` does not subtract aggressive
volume from the passive sizing: on book `{bids: {9995: 10},
asks: {9997: -5}}` with position 0 and limit 50 it emits an aggressive
buy of 5 at 9997 and still posts a passive buy of the full 50, a total
buy quantity of 55 > 50 = limit - position. -/
theorem fixed_resin_strategy_exceeds_capacity :
    fixed_resin_strategy ⟨[(9995, 10)], [(9997, -5)]⟩ 0 50 10000 2 1 =
      some [⟨9997, 5⟩, ⟨9996, 50⟩, ⟨10002, -50⟩] ∧
    50 - 0 <
      sumBuyQty [⟨9997, 5⟩, ⟨9996, 50⟩, ⟨10002, -50⟩] := by
  exact ⟨by decide, by decide⟩

/-- C3 (amended): the `trade_v16` fixed fair-value policy
(`resin_strategy`) does subtract the aggressive volume from the passive
capacity: for every book and every position within the limits, the
total emitted buy quantity is at most `limit - position` and the total
emitted sell quantity at most `limit + position`.  (The `trade_v17`
variant `fixed_resin_strategy` does not subtract it; see the
counterexample.) -/
theorem resin_strategy_respects_capacity (d : OrderDepth)
    (fair_value width position position_limit : Int)
    (h1 : -position_limit ≤ position) (h2 : position ≤ position_limit) :
    sumBuyQty (resin_strategy d fair_value width position position_limit) ≤
        position_limit - position ∧
    sumSellQty (resin_strategy d fair_value width position position_limit) ≤
        position_limit + position := by
  obtain ⟨a0, a1, a2, a3⟩ :=
    resin_take_buy_spec d fair_value width position position_limit h2
  obtain ⟨b0, b1, b2, b3⟩ :=
    resin_take_sell_spec d fair_value width position position_limit h1
  simp only [resin_strategy]
  rw [sumBuyQty_append, sumBuyQty_append, sumBuyQty_append,
    sumSellQty_append, sumSellQty_append, sumSellQty_append, a2, a3, b2, b3]
  split_ifs <;>
    simp only [sumBuyQty, sumSellQty, List.map_nil, List.sum_nil,
      List.map_cons, List.sum_cons] <;>
    (try split_ifs) <;> omega

theorem resin_strategy_respects_capacity_witness :
    sumBuyQty (resin_strategy ⟨[(9995, 10)], [(9997, -5)]⟩ 10000 2 0 50) ≤
        50 - 0 ∧
    sumSellQty (resin_strategy ⟨[(9995, 10)], [(9997, -5)]⟩ 10000 2 0 50) ≤
        50 + 0 :=
  resin_strategy_respects_capacity ⟨[(9995, 10)], [(9997, -5)]⟩ 10000 2 0 50
    (by decide) (by decide)

/-- C5 (counterexample): in the cited `Trader.run` methods a single
`try` wraps all product policies, so an exception in one product's
policy skips every later product: with policies A (ok), B (raises),
C (ok), product C's orders are present in the failure-free run but
absent when B raises — C's tick output is changed by B's failure. -/
theorem policy_exception_counterexample :
    ("C", [(⟨5, 5⟩ : Order)]) ∈ runPolicies
        [("A", Except.ok [⟨1, 1⟩]), ("B", Except.ok []),
         ("C", Except.ok [⟨5, 5⟩])] ∧
    ("C", [(⟨5, 5⟩ : Order)]) ∉ runPolicies
        [("A", Except.ok [⟨1, 1⟩]), ("B", Except.error ()),
         ("C", Except.ok [⟨5, 5⟩])] := by
  decide

/-- C5 (amended): the run survives a policy exception (the `except`
handler returns the partial result, so the loop continues to the next
tick), and the products evaluated before the failing one keep exactly
the orders they would have had; but the failing product and every
product after it contribute nothing for that tick. -/
theorem policy_exception_partial_isolation
    (pre : List (String × List Order)) (n : String) (e : Unit)
    (os : List Order) (rest : List (String × Except Unit (List Order))) :
    runPolicies (pre.map (fun q => (q.1, Except.ok q.2)) ++
        (n, Except.error e) :: rest) = pre ∧
    runPolicies (pre.map (fun q => (q.1, Except.ok q.2)) ++
        (n, Except.ok os) :: rest) = pre ++ (n, os) :: runPolicies rest := by
  induction pre with
  | nil => simp [runPolicies]
  | cons hd tl ih =>
      obtain ⟨a, bs⟩ := hd
      simp [runPolicies, ih.1, ih.2]

theorem pendulum_window_push_length {α : Type} (N : Nat) (w : List α)
    (x : α) (hw : w.length ≤ N) :
    (pendulum_window_push N w x).length ≤ N := by
  rw [pendulum_window_push]
  split
  · simp only [List.length_drop, List.length_append, List.length_cons, List.length_nil]
    omega
  · rename_i h
    simp only [List.length_append, List.length_cons, List.length_nil]
    simp only [List.length_append, List.length_cons, List.length_nil] at h
    omega

theorem kelp_window_push_length {α : Type} (N : Nat) (w : List α) (x : α)
    (hN : 1 ≤ N) (hw : w.length ≤ N) :
    (kelp_window_push N w x).length ≤ N := by
  rw [kelp_window_push]
  split_ifs with h0 h1 h2 <;>
    simp_all [List.length_drop, List.length_append] <;> omega

theorem pendulum_window_push_ne_nil {α : Type} (N : Nat) (w : List α)
    (x : α) (hN : 1 ≤ N) : pendulum_window_push N w x ≠ [] := by
  rw [pendulum_window_push]
  split
  · rename_i h
    intro hc
    have hlen := congrArg List.length hc
    simp only [List.length_drop, List.length_append, List.length_cons,
      List.length_nil] at hlen h
    omega
  · simp

theorem foldl_pendulum_window_push {α : Type} (N : Nat) :
    ∀ (xs w : List α), w.length ≤ N →
      List.foldl (pendulum_window_push N) w xs =
        (w ++ xs).drop (w.length + xs.length - N) := by
  intro xs
  induction xs with
  | nil =>
      intro w hw
      rw [List.foldl_nil, List.append_nil, List.length_nil, Nat.add_zero,
        Nat.sub_eq_zero_of_le hw, List.drop_zero]
  | cons x xs ih =>
      intro w hw
      rw [List.foldl_cons]
      have hw2 := pendulum_window_push_length N w x hw
      rw [ih _ hw2]
      by_cases hcase : N < w.length + 1
      · have hwN : w.length = N := by omega
        have hpush : pendulum_window_push N w x = (w ++ [x]).drop 1 := by
          rw [pendulum_window_push]
          rw [if_pos (by simp [hwN])]
        rw [hpush]
        have hl : ((w ++ [x]).drop 1).length = N := by simp [hwN]
        rw [← List.drop_append_of_le_length (by simp [hwN])]
        rw [List.drop_drop]
        have hassoc : (w ++ [x]) ++ xs = w ++ x :: xs := by simp
        rw [hassoc, hl]
        have hidx : 1 + (N + xs.length - N) =
            w.length + (x :: xs).length - N := by
          simp only [List.length_cons]
          omega
        rw [hidx]
      · have hpush : pendulum_window_push N w x = w ++ [x] := by
          rw [pendulum_window_push]
          rw [if_neg (by simp; omega)]
        rw [hpush]
        have hassoc : (w ++ [x]) ++ xs = w ++ x :: xs := by simp
        have hidx : (w ++ [x]).length + xs.length - N =
            w.length + (x :: xs).length - N := by
          simp only [List.length_append, List.length_cons, List.length_nil]
          omega
        rw [hassoc, hidx]

theorem kelp_window_push_eq_pendulum {α : Type} (N : Nat) (w : List α)
    (x : α) (hw : w ≠ []) :
    kelp_window_push N w x = pendulum_window_push N w x := by
  have h0 : ¬ w.length = 0 := fun hc => hw (List.length_eq_zero.1 hc)
  rw [kelp_window_push, pendulum_window_push, if_neg h0]

theorem foldl_kelp_eq_foldl_pendulum {α : Type} (N : Nat) (hN : 1 ≤ N) :
    ∀ (xs w : List α), w ≠ [] →
      List.foldl (kelp_window_push N) w xs =
        List.foldl (pendulum_window_push N) w xs := by
  intro xs
  induction xs with
  | nil => intro w _; rfl
  | cons x xs ih =>
      intro w hw
      rw [List.foldl_cons, List.foldl_cons,
        kelp_window_push_eq_pendulum N w x hw]
      exact ih _ (pendulum_window_push_ne_nil N w x hN)

theorem foldl_kelp_window_push {α : Type} (N : Nat) (hN : 1 ≤ N)
    (xs : List α) (hxs : N ≤ xs.length) :
    List.foldl (kelp_window_push N) [] xs = xs.drop (xs.length - N) := by
  cases xs with
  | nil => simp at hxs; exact absurd hN (by omega)
  | cons x rest =>
      rw [List.foldl_cons]
      simp only [List.length_cons] at hxs
      by_cases h2 : N < 2
      · have hN1 : N = 1 := by omega
        subst hN1
        have hboot : kelp_window_push 1 [] x = [x] := by
          norm_num [kelp_window_push]
        rw [hboot, foldl_kelp_eq_foldl_pendulum 1 (le_refl 1) rest [x]
            (by simp),
          foldl_pendulum_window_push 1 rest [x] (by simp)]
        have hl : [x] ++ rest = x :: rest := rfl
        have hidx : [x].length + rest.length - 1 =
            (x :: rest).length - 1 := by
          simp only [List.length_cons, List.length_nil]
          omega
        rw [hl, hidx]
      · have hboot : kelp_window_push N [] x = [x, x] := by
          simp [kelp_window_push, h2]
        rw [hboot, foldl_kelp_eq_foldl_pendulum N hN rest [x, x] (by simp),
          foldl_pendulum_window_push N rest [x, x] (by simp; omega)]
        have hidx : [x, x].length + rest.length - N =
            ((x :: rest).length - N) + 1 := by
          simp only [List.length_cons, List.length_nil]
          omega
        rw [hidx]
        have hl : [x, x] ++ rest = x :: (x :: rest) := rfl
        rw [hl, List.drop_succ_cons]

set_option maxRecDepth 8000 in
/-- C7: both rolling-window updates keep the window length at most the
capacity N, and eviction is FIFO: folding N or more samples into an
empty window leaves exactly the N most recent samples in arrival order
(the `pendulum_strategy` window of `round_v_7.py` for every N, the
`kelp_strategy` window of `trade_v16.py` — whose first call appends the
bootstrap sample twice — for every N ≥ 1); concretely, pushing the 25
values 1..25 into either window of capacity 20 leaves 6..25 in order. -/
theorem rolling_window_fifo :
    (∀ (α : Type) (N : Nat) (w : List α) (x : α), w.length ≤ N →
      (pendulum_window_push N w x).length ≤ N) ∧
    (∀ (α : Type) (N : Nat) (w : List α) (x : α), 1 ≤ N → w.length ≤ N →
      (kelp_window_push N w x).length ≤ N) ∧
    (∀ (α : Type) (N : Nat) (xs : List α), N ≤ xs.length →
      List.foldl (pendulum_window_push N) [] xs =
        xs.drop (xs.length - N)) ∧
    (∀ (α : Type) (N : Nat) (xs : List α), 1 ≤ N → N ≤ xs.length →
      List.foldl (kelp_window_push N) [] xs = xs.drop (xs.length - N)) ∧
    List.foldl (pendulum_window_push 20) []
        ((List.range 25).map (fun i => i + 1)) =
      (List.range 20).map (fun i => i + 6) ∧
    List.foldl (kelp_window_push 20) []
        ((List.range 25).map (fun i => i + 1)) =
      (List.range 20).map (fun i => i + 6) := by
  refine ⟨?_, ?_, ?_, ?_, by decide, by decide⟩
  · exact fun α N w x hw => pendulum_window_push_length N w x hw
  · exact fun α N w x hN hw => kelp_window_push_length N w x hN hw
  · intro α N xs hxs
    rw [foldl_pendulum_window_push N xs [] (by simp)]
    simp
  · exact fun α N xs hN hxs => foldl_kelp_window_push N hN xs hxs

theorem rolling_window_fifo_witness :
    List.foldl (pendulum_window_push 3) [] [(10 : Int), 11, 12, 13, 14] =
        [12, 13, 14] ∧
    List.foldl (kelp_window_push 3) [] [(10 : Int), 11, 12, 13, 14] =
        [12, 13, 14] := by
  constructor
  · have h := rolling_window_fifo.2.2.1 Int 3 [(10 : Int), 11, 12, 13, 14]
      (by decide)
    simpa using h
  · have h := rolling_window_fifo.2.2.2.1 Int 3 [(10 : Int), 11, 12, 13, 14]
      (by decide) (by decide)
    simpa using h

theorem listVariance_nonneg (l : List ℚ) : 0 ≤ listVariance l := by
  rw [listVariance]
  apply div_nonneg
  · apply List.sum_nonneg
    intro x hx
    obtain ⟨y, _, rfl⟩ := List.mem_map.1 hx
    exact sq_nonneg _
  · exact Nat.cast_nonneg _

theorem std_dev_eq_zero_iff (l : List ℚ) :
    std_dev l = 0 ↔ listVariance l = 0 := by
  rw [std_dev]
  constructor
  · intro h
    have h2 := (Real.sqrt_eq_zero
      (by exact_mod_cast listVariance_nonneg l)).1 h
    exact_mod_cast h2
  · intro h
    rw [h]
    simp

theorem std_dev_pos_iff (l : List ℚ) :
    0 < std_dev l ↔ 0 < listVariance l := by
  rw [std_dev, Real.sqrt_pos]
  exact_mod_cast Iff.rfl

/-- C6 (counterexample): the picnic-basket z-score of
`src/round_2/round2_v_1.py` line 227 divides by `np.std` with no zero
guard: on a constant spread window the standard deviation is exactly 0
and the computed z-score is a non-finite float (`nan`, with a numpy
warning — no exception, but not the value 0 the claim requires). -/
theorem zscore_v1_unguarded_counterexample :
    std_dev (List.replicate 4 (7 : ℚ)) = 0 ∧
    zscore_v1 7 (List.replicate 4 (7 : ℚ)) ≠ some 0 := by
  have hv : listVariance (List.replicate 4 (7 : ℚ)) = 0 := by
    simp [listVariance, listMean]
    norm_num
  constructor
  · rw [std_dev, hv]
    simp
  · rw [zscore_v1, if_pos hv]
    simp

/-- C6 (amended): the z-score of `src/round_2/round2_v_2.py` line 266 is
guarded — when the rolling standard deviation is 0 it is exactly 0 and
no division is attempted, and when the standard deviation is positive it
equals `(x - mean) / stdev` — but the picnic-basket z-score of
`round2_v_1.py` divides unconditionally, producing a non-finite value on
a zero-dispersion window (see the counterexample). -/
theorem zscore_guard_v2 (mid : ℚ) (history : List ℚ) :
    (std_dev history = 0 → zscore_v2 mid history = 0) ∧
    (0 < std_dev history →
      zscore_v2 mid history =
        ((mid : ℝ) - (listMean history : ℝ)) / std_dev history) := by
  constructor
  · intro h
    rw [zscore_v2, if_neg]
    rw [std_dev_eq_zero_iff] at h
    rw [h]
    exact lt_irrefl 0
  · intro h
    rw [zscore_v2, if_pos ((std_dev_pos_iff history).1 h)]

theorem zscore_guard_v2_witness :
    zscore_v2 5 (List.replicate 4 (3 : ℚ)) = 0 := by
  have hv : listVariance (List.replicate 4 (3 : ℚ)) = 0 := by
    simp [listVariance, listMean]
    norm_num
  exact (zscore_guard_v2 5 (List.replicate 4 (3 : ℚ))).1
    (by rw [std_dev, hv]; simp)

/-- C8 (counterexample): `Trader.get_mid_price` of
`src/round_2/round2_v_3.py` takes no default parameter: on a book with
both sides empty it returns the constant `0`, not a carried default —
against the spec's `mid_price(book, default)` with default 7 the two
disagree on the empty book. -/
theorem get_mid_price_no_default_counterexample :
    get_mid_price ⟨[], []⟩ = 0 ∧ midPriceSpec ⟨[], []⟩ 7 = 7 ∧
    get_mid_price ⟨[], []⟩ ≠ midPriceSpec ⟨[], []⟩ 7 := by
  refine ⟨rfl, rfl, ?_⟩
  intro h
  rw [show get_mid_price ⟨[], []⟩ = 0 from rfl,
    show midPriceSpec ⟨[], []⟩ 7 = 7 from rfl] at h
  norm_num at h

/-- C8 (amended): `get_mid_price` never raises (it is a total function of
the book): with both sides empty it returns the constant `0` (there is
no carried default parameter); with only one side present it returns
that side's best price; with both sides present it returns the
arithmetic mean of best bid and best ask. -/
theorem get_mid_price_char (d : OrderDepth) :
    (d.sell_orders = [] → d.buy_orders = [] → get_mid_price d = 0) ∧
    (∀ b, d.sell_orders = [] → bestBid d = some b →
      get_mid_price d = b) ∧
    (∀ a, d.buy_orders = [] → bestAsk d = some a →
      get_mid_price d = a) ∧
    (∀ a b, bestAsk d = some a → bestBid d = some b →
      get_mid_price d = ((b : ℚ) + a) / 2) := by
  have hsell : d.sell_orders = [] → bestAsk d = none := by
    intro h
    simp [bestAsk, h]
  have hbuy : d.buy_orders = [] → bestBid d = none := by
    intro h
    simp [bestBid, h]
  refine ⟨?_, ?_, ?_, ?_⟩
  · intro h1 h2
    rw [get_mid_price, hsell h1, hbuy h2]
  · intro b h1 hb
    rw [get_mid_price, hsell h1, hb]
  · intro a h1 ha
    rw [get_mid_price, ha, hbuy h1]
  · intro a b ha hb
    rw [get_mid_price, ha, hb]

theorem get_mid_price_char_witness :
    get_mid_price ⟨[(99, 10)], [(101, 5)]⟩ = 100 := by
  rw [(get_mid_price_char ⟨[(99, 10)], [(101, 5)]⟩).2.2.2 101 99 rfl rfl]
  norm_num

/-- C9: the replay engine is deterministic — `run_backtest` is a pure
function of the trader policy and the parsed tick sequence (the source
loop consults no clock and no randomness, and always starts from the
freshly initialised zero state), so two runs on the same input produce
identical output row sequences. -/
theorem replay_deterministic (trader : TraderFn)
    (ticks1 ticks2 : List TickSnapshot) (h : ticks1 = ticks2) :
    run_backtest trader ticks1 = run_backtest trader ticks2 := by
  rw [h]

theorem replay_deterministic_witness :
    run_backtest (fun _ books _ => books.map (fun pb => (pb.1, [⟨101, 8⟩])))
        [⟨0, [("KELP", ⟨[(99, 10)], [(101, 5)]⟩)]⟩] =
    run_backtest (fun _ books _ => books.map (fun pb => (pb.1, [⟨101, 8⟩])))
        [⟨0, [("KELP", ⟨[(99, 10)], [(101, 5)]⟩)]⟩] :=
  replay_deterministic _ _ _ rfl
